import Mathlib

/-!
Verification of the code-sage indexing and retrieval pipeline.

This file gives a shallow embedding, in Lean 4, of the parts of the Rust
source that the specification claims talk about:

* `src/search/hybrid.rs` — Reciprocal Rank Fusion reranking (`rerank`);
* `src/sync/merkle.rs` and `src/sync/synchronizer.rs` — the Merkle DAG,
  `build_merkle_dag`, `compare_states` and `check_for_changes`;
* `src/ast/splitter.rs` — `create_code_chunk`, `add_overlap_to_chunks` and
  the character-window fallback `split_with_fallback`;
* `src/handlers/index.rs` — the chunk accumulation loop with its 450,000
  hard cap and the terminal `index_status`;
* `src/vectordb/usearch_db.rs` — `insert` and `search` dimension checks
  and the reserve-before-add discipline;
* `src/handlers/index.rs` / `src/handlers/clear.rs` — the handler guard
  logic for concurrent indexing and for clearing unindexed codebases.

Rust strings are modelled at the byte level (`List Nat` of UTF-8 bytes)
where the code manipulates byte positions, and as Lean `String` where the
code only concatenates. Rust `HashMap`s are modelled as association lists
whose list order stands for the (unspecified) iteration order of the map;
`f32` scores are modelled as exact rationals. SHA-256 is implemented
concretely so that chunk ids and Merkle node ids are computable.
-/

/-! ## SHA-256 (the `sha2` crate dependency, modelled concretely) -/

/-- Truncation of a natural number to 32 bits. -/
def m32 (x : Nat) : Nat := x % 4294967296

/-- Rotation of a 32-bit word to the right by `n` bits. -/
def rotr32 (x n : Nat) : Nat := m32 ((x >>> n) ||| (x <<< (32 - n)))

/-- Logical right shift of a 32-bit word. -/
def shr32 (x n : Nat) : Nat := x >>> n

/-- The SHA-256 round constants. -/
def sha256K : List Nat :=
  [1116352408, 1899447441, 3049323471, 3921009573, 961987163,
   1508970993, 2453635748, 2870763221, 3624381080, 310598401,
   607225278, 1426881987, 1925078388, 2162078206, 2614888103,
   3248222580, 3835390401, 4022224774, 264347078, 604807628,
   770255983, 1249150122, 1555081692, 1996064986, 2554220882,
   2821834349, 2952996808, 3210313671, 3336571891, 3584528711,
   113926993, 338241895, 666307205, 773529912, 1294757372,
   1396182291, 1695183700, 1986661051, 2177026350, 2456956037,
   2730485921, 2820302411, 3259730800, 3345764771, 3516065817,
   3600352804, 4094571909, 275423344, 430227734, 506948616,
   659060556, 883997877, 958139571, 1322822218, 1537002063,
   1747873779, 1955562222, 2024104815, 2227730452, 2361852424,
   2428436474, 2756734187, 3204031479, 3329325298]

/-- The SHA-256 initial hash value. -/
def sha256H0 : List Nat :=
  [1779033703, 3144134277, 1013904242, 2773480762, 1359893119,
   2600822924, 528734635, 1541459225]

/-- Big-endian eight-byte encoding of a natural number. -/
def u64BE (n : Nat) : List Nat :=
  [(n >>> 56) % 256, (n >>> 48) % 256, (n >>> 40) % 256, (n >>> 32) % 256,
   (n >>> 24) % 256, (n >>> 16) % 256, (n >>> 8) % 256, n % 256]

/-- SHA-256 padding of a byte string. -/
def sha256Pad (msg : List Nat) : List Nat :=
  msg ++ 0x80 :: List.replicate ((119 - msg.length % 64) % 64) 0 ++ u64BE (msg.length * 8)

/-- Grouping of padded bytes into big-endian 32-bit words. -/
def bytesToWords : List Nat → List Nat
  | b0 :: b1 :: b2 :: b3 :: rest =>
      (((b0 * 256 + b1) * 256 + b2) * 256 + b3) :: bytesToWords rest
  | _ => []

/-- Extension of the sixteen message words to sixty-four words. -/
def sha256Schedule (w : Array Nat) : Array Nat :=
  (List.range 48).foldl (fun w i =>
    let s0 := (rotr32 (w.getD (i + 1) 0) 7) ^^^ (rotr32 (w.getD (i + 1) 0) 18) ^^^
      (shr32 (w.getD (i + 1) 0) 3)
    let s1 := (rotr32 (w.getD (i + 14) 0) 17) ^^^ (rotr32 (w.getD (i + 14) 0) 19) ^^^
      (shr32 (w.getD (i + 14) 0) 10)
    w.push (m32 (w.getD i 0 + s0 + w.getD (i + 9) 0 + s1))) w

/-- Working state of the SHA-256 compression function. -/
structure Sha256State where
  a : Nat
  b : Nat
  c : Nat
  d : Nat
  e : Nat
  f : Nat
  g : Nat
  h : Nat

/-- One round of the SHA-256 compression function. -/
def sha256Round (st : Sha256State) (kw : Nat × Nat) : Sha256State :=
  let S1 := (rotr32 st.e 6) ^^^ (rotr32 st.e 11) ^^^ (rotr32 st.e 25)
  let ch := (st.e &&& st.f) ^^^ ((4294967295 - st.e) &&& st.g)
  let t1 := m32 (st.h + S1 + ch + kw.1 + kw.2)
  let S0 := (rotr32 st.a 2) ^^^ (rotr32 st.a 13) ^^^ (rotr32 st.a 22)
  let mj := (st.a &&& st.b) ^^^ (st.a &&& st.c) ^^^ (st.b &&& st.c)
  let t2 := m32 (S0 + mj)
  ⟨m32 (t1 + t2), st.a, st.b, st.c, m32 (st.d + t1), st.e, st.f, st.g⟩

/-- Compression of one 64-byte block into the running hash. -/
def sha256Block (hv : List Nat) (block : List Nat) : List Nat :=
  let w := sha256Schedule (bytesToWords block).toArray
  let init : Sha256State :=
    ⟨hv.getD 0 0, hv.getD 1 0, hv.getD 2 0, hv.getD 3 0, hv.getD 4 0, hv.getD 5 0, hv.getD 6 0,
      hv.getD 7 0⟩
  let st := (sha256K.zip w.toList).foldl sha256Round init
  [m32 (hv.getD 0 0 + st.a), m32 (hv.getD 1 0 + st.b), m32 (hv.getD 2 0 + st.c),
   m32 (hv.getD 3 0 + st.d), m32 (hv.getD 4 0 + st.e), m32 (hv.getD 5 0 + st.f),
   m32 (hv.getD 6 0 + st.g), m32 (hv.getD 7 0 + st.h)]

/-- Iterated block compression; the first argument is the number of blocks. -/
def sha256Blocks : Nat → List Nat → List Nat → List Nat
  | 0, hv, _ => hv
  | n + 1, hv, bytes => sha256Blocks n (sha256Block hv (bytes.take 64)) (bytes.drop 64)

/-- The SHA-256 digest (32 bytes) of a byte string. -/
def sha256 (msg : List Nat) : List Nat :=
  let padded := sha256Pad msg
  (sha256Blocks (padded.length / 64) sha256H0 padded).flatMap
    (fun w => [(w >>> 24) % 256, (w >>> 16) % 256, (w >>> 8) % 256, w % 256])

/-- Lower-case hex digit for a value below sixteen. -/
def hexDigit (n : Nat) : Char := Char.ofNat (if n < 10 then 48 + n else 87 + n)

/-- Lower-case hex rendering of a byte string. -/
def hexString (bytes : List Nat) : String :=
  String.mk (bytes.flatMap (fun b => [hexDigit (b / 16), hexDigit (b % 16)]))

/-- UTF-8 encoding of a character. -/
def utf8Bytes (c : Char) : List Nat :=
  let n := c.toNat
  if n < 0x80 then [n]
  else if n < 0x800 then [0xC0 + n / 64, 0x80 + n % 64]
  else if n < 0x10000 then [0xE0 + n / 4096, 0x80 + (n / 64) % 64, 0x80 + n % 64]
  else [0xF0 + n / 262144, 0x80 + (n / 4096) % 64, 0x80 + (n / 64) % 64, 0x80 + n % 64]

/-- UTF-8 encoding of a string. -/
def strBytes (s : String) : List Nat := s.data.flatMap utf8Bytes

/-- Hex SHA-256 digest of a byte string: the Rust idiom
`format!("\x7b:x\x7d", hasher.finalize())` on a `Sha256` fed those bytes. -/
def sha256Hex (msg : List Nat) : String := hexString (sha256 msg)

-- Sanity check against the FIPS 180 test vector for "abc".
set_option maxRecDepth 100000 in
example :
    sha256Hex (strBytes "abc") =
      "ba7816bf8f01cfea414140de5dae2223b00361a396177a9cb410ff61f20015ad" := by decide

/-! ## Hybrid RRF reranking (`src/search/hybrid.rs`) -/

/-- `crate::vectordb::SearchResult`; the `f32` score is modelled as a rational. -/
structure VectorResult where
  id : String
  score : ℚ
deriving DecidableEq

/-- `crate::search::BM25Result`; the `f32` score is modelled as a rational. -/
structure BM25Result where
  id : String
  score : ℚ
deriving DecidableEq

/-- Value of an association list at a key, zero when absent: the score a
`HashMap<String, f32>` holds for that key. -/
def scoreOf : List (String × ℚ) → String → ℚ
  | [], _ => 0
  | p :: rest, d => if p.1 = d then p.2 else scoreOf rest d

/-- `*scores.entry(id).or_insert(0.0) += s` on the association-list model: add
to the entry in place if the key is present, append it otherwise. -/
def addScore : List (String × ℚ) → String → ℚ → List (String × ℚ)
  | [], id, s => [(id, s)]
  | p :: rest, id, s =>
      if p.1 = id then (p.1, p.2 + s) :: rest else p :: addScore rest id s

/-- The enumerated accumulation loop of `HybridSearch::rerank` over one result
list: rank `r` contributes `1 / (rrf_k + r + 1)` to its id. -/
def accumRRF (k : Nat) : Nat → List String → List (String × ℚ) → List (String × ℚ)
  | _, [], scores => scores
  | r, id :: rest, scores =>
      accumRRF k (r + 1) rest (addScore scores id (1 / ((k + r + 1 : Nat) : ℚ)))

/-- `HybridSearch::rerank`: accumulate RRF contributions from the vector list,
then from the BM25 list, then stable-sort by score descending. Mathlib
insertion sort is stable and kernel-computable; it returns the same sorted
permutation as the stable sort used by Rust `sort_by`. -/
def rerank (rrf_k : Nat) (vector_results : List VectorResult)
    (bm25_results : List BM25Result) : List (String × ℚ) :=
  let scores := accumRRF rrf_k 0 (bm25_results.map (·.id))
    (accumRRF rrf_k 0 (vector_results.map (·.id)) [])
  List.insertionSort (fun a b => b.2 ≤ a.2) scores

/-- `HybridSearch::search`: rerank then truncate to `top_k`. -/
def hybridSearch (rrf_k : Nat) (vector_results : List VectorResult)
    (bm25_results : List BM25Result) (top_k : Nat) : List (String × ℚ) :=
  (rerank rrf_k vector_results bm25_results).take top_k

/-- Sum of RRF contributions that the list starting at rank `r` makes to id
`d` (one term per occurrence of `d`). -/
def rrfTermSum (k : Nat) : Nat → List String → String → ℚ
  | _, [], _ => 0
  | r, id :: rest, d =>
      (if id = d then 1 / ((k + r + 1 : Nat) : ℚ) else 0) + rrfTermSum k (r + 1) rest d

/-- The score formula of the specification:
`score(d) = Σ over the lists containing d of 1 / (k + rank(d) + 1)`
with zero-based rank. -/
def specRRFScore (k : Nat) (vecIds bmIds : List String) (d : String) : ℚ :=
  (if d ∈ vecIds then 1 / ((k + vecIds.indexOf d + 1 : Nat) : ℚ) else 0) +
  (if d ∈ bmIds then 1 / ((k + bmIds.indexOf d + 1 : Nat) : ℚ) else 0)

theorem scoreOf_addScore (l : List (String × ℚ)) (id : String) (s : ℚ) (d : String) :
    scoreOf (addScore l id s) d = scoreOf l d + (if d = id then s else 0) := by
  induction l with
  | nil =>
      simp only [addScore, scoreOf]
      by_cases h : id = d
      · subst h; simp
      · rw [if_neg h, if_neg (fun hd => h hd.symm)]; simp
  | cons p rest ih =>
      simp only [addScore]
      by_cases h : p.1 = id
      · rw [if_pos h]
        show (if p.1 = d then p.2 + s else scoreOf rest d) =
          (if p.1 = d then p.2 else scoreOf rest d) + (if d = id then s else 0)
        by_cases h2 : p.1 = d
        · have hdi : d = id := by rw [← h2, h]
          rw [if_pos h2, if_pos h2, if_pos hdi]
        · have hdi : ¬ d = id := by
            intro hd
            exact h2 (by rw [h, hd])
          rw [if_neg h2, if_neg h2, if_neg hdi, add_zero]
      · rw [if_neg h]
        show (if p.1 = d then p.2 else scoreOf (addScore rest id s) d) =
          (if p.1 = d then p.2 else scoreOf rest d) + (if d = id then s else 0)
        by_cases h2 : p.1 = d
        · have hdi : ¬ d = id := by
            intro hd
            exact h (by rw [h2, hd])
          rw [if_pos h2, if_pos h2, if_neg hdi, add_zero]
        · rw [if_neg h2, if_neg h2, ih]

theorem mem_keys_addScore (l : List (String × ℚ)) (id : String) (s : ℚ) (d : String) :
    d ∈ (addScore l id s).map Prod.fst ↔ d ∈ l.map Prod.fst ∨ d = id := by
  induction l with
  | nil => simp [addScore, eq_comm]
  | cons p rest ih =>
      by_cases h : p.1 = id
      · simp only [addScore, if_pos h, List.map_cons, List.mem_cons]
        constructor
        · rintro (rfl | hm)
          · exact Or.inl (Or.inl rfl)
          · exact Or.inl (Or.inr hm)
        · rintro ((rfl | hm) | rfl)
          · exact Or.inl rfl
          · exact Or.inr hm
          · exact Or.inl h.symm
      · simp only [addScore, if_neg h, List.map_cons, List.mem_cons, ih]
        tauto

theorem nodup_keys_addScore (l : List (String × ℚ)) (id : String) (s : ℚ)
    (h : (l.map Prod.fst).Nodup) : ((addScore l id s).map Prod.fst).Nodup := by
  induction l with
  | nil => simp [addScore]
  | cons p rest ih =>
      rcases List.nodup_cons.mp h with ⟨hp, hrest⟩
      by_cases hid : p.1 = id
      · have he : addScore (p :: rest) id s = (p.1, p.2 + s) :: rest := by
          simp [addScore, hid]
        rw [he, List.map_cons]
        exact List.nodup_cons.mpr ⟨hp, hrest⟩
      · have he : addScore (p :: rest) id s = p :: addScore rest id s := by
          simp [addScore, hid]
        rw [he, List.map_cons]
        refine List.nodup_cons.mpr ⟨?_, ih hrest⟩
        intro hmem
        rcases (mem_keys_addScore rest id s p.1).mp hmem with hm | hm
        · exact hp hm
        · exact hid hm

theorem entry_eq_scoreOf {l : List (String × ℚ)} (h : (l.map Prod.fst).Nodup)
    {p : String × ℚ} (hp : p ∈ l) : p.2 = scoreOf l p.1 := by
  induction l with
  | nil => cases hp
  | cons q rest ih =>
      rcases List.nodup_cons.mp h with ⟨hq, hrest⟩
      rcases List.mem_cons.mp hp with rfl | hp2
      · simp [scoreOf]
      · have hne : q.1 ≠ p.1 := by
          intro he
          exact hq (he ▸ List.mem_map_of_mem Prod.fst hp2)
        simp [scoreOf, hne, ih hrest hp2]

theorem scoreOf_accumRRF (k : Nat) (ids : List String) :
    ∀ (r : Nat) (l : List (String × ℚ)) (d : String),
      scoreOf (accumRRF k r ids l) d = scoreOf l d + rrfTermSum k r ids d := by
  induction ids with
  | nil => intro r l d; simp [accumRRF, rrfTermSum]
  | cons id rest ih =>
      intro r l d
      simp only [accumRRF, rrfTermSum, ih (r + 1), scoreOf_addScore]
      by_cases h : d = id
      · rw [if_pos h, if_pos (h ▸ rfl)]
        ring
      · rw [if_neg h, if_neg (fun he => h he.symm)]
        ring

theorem mem_keys_accumRRF (k : Nat) (ids : List String) :
    ∀ (r : Nat) (l : List (String × ℚ)) (d : String),
      d ∈ (accumRRF k r ids l).map Prod.fst ↔ d ∈ l.map Prod.fst ∨ d ∈ ids := by
  induction ids with
  | nil => intro r l d; simp [accumRRF]
  | cons id rest ih =>
      intro r l d
      simp only [accumRRF, ih (r + 1), mem_keys_addScore, List.mem_cons]
      tauto

theorem nodup_keys_accumRRF (k : Nat) (ids : List String) :
    ∀ (r : Nat) (l : List (String × ℚ)), (l.map Prod.fst).Nodup →
      ((accumRRF k r ids l).map Prod.fst).Nodup := by
  induction ids with
  | nil => intro r l h; simpa [accumRRF] using h
  | cons id rest ih =>
      intro r l h
      exact ih (r + 1) _ (nodup_keys_addScore l id _ h)

theorem rrfTermSum_eq_zero (k : Nat) {ids : List String} {d : String} (h : d ∉ ids) :
    ∀ r, rrfTermSum k r ids d = 0 := by
  induction ids with
  | nil => intro r; simp [rrfTermSum]
  | cons id rest ih =>
      intro r
      have h1 : id ≠ d := fun he => h (by simp [he])
      have h2 : d ∉ rest := fun hm => h (by simp [hm])
      simp [rrfTermSum, h1, ih h2]

theorem rrfTermSum_nodup (k : Nat) {ids : List String} (h : ids.Nodup) (d : String) :
    ∀ r, rrfTermSum k r ids d =
      if d ∈ ids then 1 / ((k + r + ids.indexOf d + 1 : Nat) : ℚ) else 0 := by
  induction ids with
  | nil => intro r; simp [rrfTermSum]
  | cons id rest ih =>
      intro r
      rcases List.nodup_cons.mp h with ⟨hid, hrest⟩
      by_cases he : id = d
      · subst he
        have hz : rrfTermSum k (r + 1) rest id = 0 := rrfTermSum_eq_zero k hid _
        simp [rrfTermSum, hz, List.indexOf_cons_self]
      · have hne : id ≠ d := he
        have hstep : List.indexOf d (id :: rest) = (List.indexOf d rest).succ :=
          List.indexOf_cons_ne rest hne
        rw [rrfTermSum, if_neg he, ih hrest (r + 1), hstep]
        by_cases hm : d ∈ rest
        · have hm2 : d ∈ id :: rest := List.mem_cons_of_mem id hm
          rw [if_pos hm, if_pos hm2, zero_add]
          have harith : k + (r + 1) + List.indexOf d rest + 1 =
              k + r + (List.indexOf d rest).succ + 1 := by omega
          rw [harith]
        · have hm2 : d ∉ id :: rest := by
            intro hc
            rcases List.mem_cons.mp hc with rfl | hc2
            · exact he rfl
            · exact hm hc2
          rw [if_neg hm, if_neg hm2, zero_add]

instance : IsTotal (String × ℚ) (fun a b => b.2 ≤ a.2) :=
  ⟨fun a b => le_total b.2 a.2⟩

instance : IsTrans (String × ℚ) (fun a b => b.2 ≤ a.2) :=
  ⟨fun _ _ _ h1 h2 => le_trans h2 h1⟩

/-- C1: for all ranked input lists `V` and `B` (with distinct ids within each
list, as ranked result lists have), `rerank` assigns every document id `d` the
score `Σ` over the lists containing `d` of `1 / (k + rank + 1)` with 0-based
rank and RRF constant `k`; it returns exactly the ids appearing in at least
one list, sorted by score in descending order, so an id appearing in neither
list is absent from the output. -/
theorem rerank_rrf_correct (k : Nat) (V : List VectorResult) (B : List BM25Result)
    (hV : (V.map VectorResult.id).Nodup) (hB : (B.map BM25Result.id).Nodup) :
    (∀ p ∈ rerank k V B,
      p.2 = specRRFScore k (V.map VectorResult.id) (B.map BM25Result.id) p.1) ∧
    (∀ d : String, d ∈ (rerank k V B).map Prod.fst ↔
      d ∈ V.map VectorResult.id ∨ d ∈ B.map BM25Result.id) ∧
    (rerank k V B).Pairwise (fun a b => b.2 ≤ a.2) := by
  set vecIds := V.map VectorResult.id with hvec
  set bmIds := B.map BM25Result.id with hbm
  have hmapeq : V.map VectorResult.id = V.map (·.id) := rfl
  have hmapeq2 : B.map BM25Result.id = B.map (·.id) := rfl
  set scores := accumRRF k 0 bmIds (accumRRF k 0 vecIds []) with hscores
  have hkeys : (scores.map Prod.fst).Nodup :=
    nodup_keys_accumRRF k bmIds 0 _ (nodup_keys_accumRRF k vecIds 0 [] (by simp))
  have hrr : rerank k V B = List.insertionSort (fun a b => b.2 ≤ a.2) scores := rfl
  have hperm : (rerank k V B).Perm scores := by
    rw [hrr]
    exact List.perm_insertionSort _ _
  have hscoreOf : ∀ d, scoreOf scores d = specRRFScore k vecIds bmIds d := by
    intro d
    rw [hscores, scoreOf_accumRRF, scoreOf_accumRRF]
    simp only [scoreOf, zero_add]
    rw [rrfTermSum_nodup k (by simpa using hV) d 0, rrfTermSum_nodup k (by simpa using hB) d 0]
    simp [specRRFScore]
  refine ⟨?_, ?_, ?_⟩
  · intro p hp
    have hps : p ∈ scores := hperm.subset hp
    rw [entry_eq_scoreOf hkeys hps, hscoreOf]
  · intro d
    have h1 : d ∈ (rerank k V B).map Prod.fst ↔ d ∈ scores.map Prod.fst :=
      (hperm.map Prod.fst).mem_iff
    rw [h1, hscores, mem_keys_accumRRF, mem_keys_accumRRF]
    simp [or_comm]
  · rw [hrr]
    exact List.sorted_insertionSort (fun a b => b.2 ≤ a.2) scores

/-- Witness for `rerank_rrf_correct` at concrete two-element inputs. -/
theorem rerank_rrf_correct_witness :
    (([⟨"doc1", 9/10⟩, ⟨"doc2", 4/5⟩] : List VectorResult).map VectorResult.id).Nodup ∧
    (([⟨"doc2", 10⟩, ⟨"doc3", 9⟩] : List BM25Result).map BM25Result.id).Nodup ∧
    ((∀ p ∈ rerank 100 [⟨"doc1", 9/10⟩, ⟨"doc2", 4/5⟩] [⟨"doc2", 10⟩, ⟨"doc3", 9⟩],
      p.2 = specRRFScore 100
        (([⟨"doc1", 9/10⟩, ⟨"doc2", 4/5⟩] : List VectorResult).map VectorResult.id)
        (([⟨"doc2", 10⟩, ⟨"doc3", 9⟩] : List BM25Result).map BM25Result.id) p.1) ∧
    (∀ d : String,
      d ∈ (rerank 100 [⟨"doc1", 9/10⟩, ⟨"doc2", 4/5⟩] [⟨"doc2", 10⟩, ⟨"doc3", 9⟩]).map Prod.fst ↔
      d ∈ ([⟨"doc1", 9/10⟩, ⟨"doc2", 4/5⟩] : List VectorResult).map VectorResult.id ∨
      d ∈ ([⟨"doc2", 10⟩, ⟨"doc3", 9⟩] : List BM25Result).map BM25Result.id) ∧
    (rerank 100 [⟨"doc1", 9/10⟩, ⟨"doc2", 4/5⟩] [⟨"doc2", 10⟩, ⟨"doc3", 9⟩]).Pairwise
      (fun a b => b.2 ≤ a.2)) :=
  ⟨by decide, by decide,
    rerank_rrf_correct 100 [⟨"doc1", 9/10⟩, ⟨"doc2", 4/5⟩] [⟨"doc2", 10⟩, ⟨"doc3", 9⟩]
      (by decide) (by decide)⟩

/-! ## Association-list model of `HashMap` (generic helpers) -/

/-- `HashMap::get` on the association-list model (first matching key wins). -/
def assocGet {α β : Type} [DecidableEq α] : List (α × β) → α → Option β
  | [], _ => none
  | p :: rest, k => if p.1 = k then some p.2 else assocGet rest k

/-- `HashMap::insert` on the association-list model: replace the value in
place when the key is present, append otherwise. -/
def assocInsert {α β : Type} [DecidableEq α] : List (α × β) → α → β → List (α × β)
  | [], k, v => [(k, v)]
  | p :: rest, k, v => if p.1 = k then (k, v) :: rest else p :: assocInsert rest k v

theorem assocGet_eq_some_of_mem {α β : Type} [DecidableEq α] {l : List (α × β)}
    (hnd : (l.map Prod.fst).Nodup) {k : α} {v : β} (hm : (k, v) ∈ l) :
    assocGet l k = some v := by
  induction l with
  | nil => cases hm
  | cons p rest ih =>
      rcases List.nodup_cons.mp hnd with ⟨hp, hrest⟩
      rcases List.mem_cons.mp hm with rfl | hm2
      · simp [assocGet]
      · have hne : p.1 ≠ k := by
          intro he
          exact hp (he ▸ List.mem_map_of_mem Prod.fst hm2)
        simp [assocGet, hne, ih hrest hm2]

theorem mem_of_assocGet_eq_some {α β : Type} [DecidableEq α] {l : List (α × β)}
    {k : α} {v : β} (h : assocGet l k = some v) : (k, v) ∈ l := by
  induction l with
  | nil => cases h
  | cons p rest ih =>
      by_cases he : p.1 = k
      · rw [assocGet, if_pos he] at h
        exact List.mem_cons.mpr (Or.inl (by cases h; rw [← he]))
      · rw [assocGet, if_neg he] at h
        exact List.mem_cons.mpr (Or.inr (ih h))

theorem assocGet_eq_none_iff {α β : Type} [DecidableEq α] (l : List (α × β)) (k : α) :
    assocGet l k = none ↔ k ∉ l.map Prod.fst := by
  induction l with
  | nil => simp [assocGet]
  | cons p rest ih =>
      by_cases he : p.1 = k
      · simp [assocGet, he]
      · simp only [assocGet, if_neg he, List.map_cons, List.mem_cons, ih]
        constructor
        · rintro h (rfl | hm)
          · exact he rfl
          · exact h hm
        · intro h hm
          exact h (Or.inr hm)

theorem assocGet_isSome_of_mem_keys {α β : Type} [DecidableEq α] {l : List (α × β)}
    {k : α} (h : k ∈ l.map Prod.fst) : (assocGet l k).isSome := by
  cases hg : assocGet l k with
  | none => exact absurd h ((assocGet_eq_none_iff l k).mp hg)
  | some v => rfl

theorem assocGet_perm {α β : Type} [DecidableEq α] {l1 l2 : List (α × β)}
    (hperm : l1.Perm l2) (hnd : (l1.map Prod.fst).Nodup) (k : α) :
    assocGet l1 k = assocGet l2 k := by
  have hnd2 : (l2.map Prod.fst).Nodup := ((hperm.map Prod.fst).nodup_iff).mp hnd
  cases hg : assocGet l1 k with
  | none =>
      have hk : k ∉ l1.map Prod.fst := (assocGet_eq_none_iff l1 k).mp hg
      have hk2 : k ∉ l2.map Prod.fst := fun hm => hk ((hperm.map Prod.fst).mem_iff.mpr hm)
      exact ((assocGet_eq_none_iff l2 k).mpr hk2).symm
  | some v =>
      have hm : (k, v) ∈ l2 := hperm.subset (mem_of_assocGet_eq_some hg)
      exact (assocGet_eq_some_of_mem hnd2 hm).symm

/-! ## Merkle DAG (`src/sync/merkle.rs`) -/

/-- `MerkleDAGNode`. -/
structure MerkleDAGNode where
  id : String
  hash : String
  data : String
  parents : List String
  children : List String
deriving DecidableEq

/-- `MerkleDAG`; `nodes` is the association-list model of the
`HashMap<String, MerkleDAGNode>` (keys are node ids by construction). -/
structure MerkleDAG where
  nodes : List (String × MerkleDAGNode)
  root_ids : List String
deriving DecidableEq

/-- `MerkleDAG::new`. -/
def MerkleDAG.new : MerkleDAG := ⟨[], []⟩

/-- `MerkleDAG::hash`: hex SHA-256 of the data string. -/
def MerkleDAG.hashData (data : String) : String := sha256Hex (strBytes data)

/-- `MerkleDAG::add_node`: returns the new node id and the updated DAG. -/
def MerkleDAG.add_node (dag : MerkleDAG) (data : String) (parent_id : Option String) :
    String × MerkleDAG :=
  let node_id := MerkleDAG.hashData data
  let node : MerkleDAGNode := ⟨node_id, node_id, data, [], []⟩
  match parent_id with
  | some pid =>
      match assocGet dag.nodes pid with
      | some parent =>
          let nodes1 := assocInsert dag.nodes pid
            { parent with children := parent.children ++ [node_id] }
          ⟨node_id, ⟨assocInsert nodes1 node_id { node with parents := [pid] }, dag.root_ids⟩⟩
      | none => ⟨node_id, ⟨assocInsert dag.nodes node_id node, dag.root_ids⟩⟩
  | none => ⟨node_id, ⟨assocInsert dag.nodes node_id node, dag.root_ids ++ [node_id]⟩⟩

/-- `DagComparison`. -/
structure DagComparison where
  added : List String
  removed : List String
  modified : List String
deriving DecidableEq

/-- `MerkleDAG::compare`: node-set diff keyed by node id (in `add_node`-built
DAGs every map key is the id of the node stored under it). -/
def MerkleDAG.compare (dag1 dag2 : MerkleDAG) : DagComparison :=
  let added := (dag2.nodes.map Prod.fst).filter (fun k => (assocGet dag1.nodes k).isNone)
  let removed := (dag1.nodes.map Prod.fst).filter (fun k => (assocGet dag2.nodes k).isNone)
  let modified := dag1.nodes.filterMap (fun p =>
    match assocGet dag2.nodes p.1 with
    | some n2 => if p.2.data ≠ n2.data then some p.1 else none
    | none => none)
  ⟨added, removed, modified⟩

/-! ## File synchronizer (`src/sync/synchronizer.rs`) -/

/-- Root node data of `build_merkle_dag`: `"root:"` followed by the file
hashes concatenated in map iteration order (the association-list order). -/
def rootNodeData (file_hashes : List (String × String)) : String :=
  "root:" ++ String.join (file_hashes.map Prod.snd)

/-- The paths of the map sorted ascending, as Rust `sorted_paths.sort()`:
insertion sort returns the same sorted permutation. -/
def sortStrings (l : List String) : List String := List.insertionSort (· ≤ ·) l

/-- The leaf data strings `"<relative_path>:<hash>"` in sorted-by-path order. -/
def leafDataSeq (file_hashes : List (String × String)) : List String :=
  (sortStrings (file_hashes.map Prod.fst)).map
    (fun path => path ++ ":" ++ (assocGet file_hashes path).getD "")

/-- `FileSynchronizer::build_merkle_dag`: add the root node, then one leaf
per file in sorted-by-path order with data `"<relative_path>:<hash>"`. -/
def build_merkle_dag (file_hashes : List (String × String)) : MerkleDAG :=
  let rootStep := MerkleDAG.new.add_node (rootNodeData file_hashes) none
  (leafDataSeq file_hashes).foldl
    (fun dag file_data => (dag.add_node file_data (some rootStep.1)).2) rootStep.2

/-- `FileChanges`. -/
structure FileChanges where
  added : List String
  removed : List String
  modified : List String
deriving DecidableEq

/-- First loop of `compare_states`: classify each new entry as added or
modified (in iteration order). -/
def csNewLoop (old_hashes : List (String × String)) :
    List (String × String) → List String × List String
  | [] => ([], [])
  | (f, h) :: rest =>
      let am := csNewLoop old_hashes rest
      match assocGet old_hashes f with
      | none => (f :: am.1, am.2)
      | some h0 => if h0 ≠ h then (am.1, f :: am.2) else am

/-- Second loop of `compare_states`: old keys missing from the new map. -/
def csOldLoop (new_hashes : List (String × String)) :
    List (String × String) → List String
  | [] => []
  | (f, _) :: rest =>
      if (assocGet new_hashes f).isNone then f :: csOldLoop new_hashes rest
      else csOldLoop new_hashes rest

/-- `FileSynchronizer::compare_states`. -/
def compare_states (old_hashes new_hashes : List (String × String)) : FileChanges :=
  let am := csNewLoop old_hashes new_hashes
  ⟨am.1, csOldLoop new_hashes old_hashes, am.2⟩

/-- The synchronizer state that `check_for_changes` reads and writes. -/
structure FileSynchronizer where
  file_hashes : List (String × String)
  merkle_dag : MerkleDAG

/-- `FileSynchronizer::check_for_changes`, taking the freshly generated
file-hash map as input (the directory walk is I/O) and returning the
`FileChanges` together with the updated synchronizer state. -/
def check_for_changes (sync : FileSynchronizer)
    (new_file_hashes : List (String × String)) : FileChanges × FileSynchronizer :=
  let new_merkle_dag := build_merkle_dag new_file_hashes
  let dag_changes := MerkleDAG.compare sync.merkle_dag new_merkle_dag
  if dag_changes.added ≠ [] ∨ dag_changes.removed ≠ [] ∨ dag_changes.modified ≠ [] then
    (compare_states sync.file_hashes new_file_hashes,
      ⟨new_file_hashes, new_merkle_dag⟩)
  else
    (⟨[], [], []⟩, sync)

theorem csNewLoop_eq_nil (old_hashes : List (String × String)) :
    ∀ new_hashes : List (String × String),
      (∀ p ∈ new_hashes, assocGet old_hashes p.1 = some p.2) →
      csNewLoop old_hashes new_hashes = ([], []) := by
  intro new_hashes
  induction new_hashes with
  | nil => intro _; rfl
  | cons p rest ih =>
      intro hp
      obtain ⟨f, h⟩ := p
      have h1 : assocGet old_hashes f = some h := hp (f, h) (List.mem_cons_self _ _)
      have h2 : csNewLoop old_hashes rest = ([], []) :=
        ih (fun q hq => hp q (List.mem_cons_of_mem _ hq))
      simp [csNewLoop, h1, h2]

theorem csOldLoop_eq_nil (new_hashes : List (String × String)) :
    ∀ old_hashes : List (String × String),
      (∀ p ∈ old_hashes, (assocGet new_hashes p.1).isSome) →
      csOldLoop new_hashes old_hashes = [] := by
  intro old_hashes
  induction old_hashes with
  | nil => intro _; rfl
  | cons p rest ih =>
      intro hp
      obtain ⟨f, h⟩ := p
      have h1 : (assocGet new_hashes f).isSome = true := hp (f, h) (List.mem_cons_self _ _)
      have h2 : csOldLoop new_hashes rest = [] :=
        ih (fun q hq => hp q (List.mem_cons_of_mem _ hq))
      simp only [csOldLoop]
      rw [if_neg (by simp [Option.isNone_iff_eq_none]; intro hn; rw [hn] at h1; cases h1)]
      exact h2

/-- C3: `check_for_changes` on a codebase whose live file tree hashes to the
same `relative_path → hash` map as the stored snapshot returns a
`FileChanges` with empty `added`, `removed` and `modified` — regardless of
which branch the Merkle-DAG early exit takes. -/
theorem check_for_changes_unchanged (sync : FileSynchronizer)
    (new_file_hashes : List (String × String))
    (hnd : (new_file_hashes.map Prod.fst).Nodup)
    (heq : ∀ f, assocGet sync.file_hashes f = assocGet new_file_hashes f) :
    (check_for_changes sync new_file_hashes).1 = ⟨[], [], []⟩ := by
  have hcs : compare_states sync.file_hashes new_file_hashes = ⟨[], [], []⟩ := by
    have h1 : csNewLoop sync.file_hashes new_file_hashes = ([], []) := by
      apply csNewLoop_eq_nil
      intro p hp
      rw [heq p.1]
      exact assocGet_eq_some_of_mem hnd hp
    have h2 : csOldLoop new_file_hashes sync.file_hashes = [] := by
      apply csOldLoop_eq_nil
      intro p hp
      rw [← heq p.1]
      exact assocGet_isSome_of_mem_keys (List.mem_map_of_mem Prod.fst hp)
    simp [compare_states, h1, h2]
  simp only [check_for_changes]
  split
  · exact hcs
  · rfl

/-- Witness for `check_for_changes_unchanged` on a one-file snapshot. -/
theorem check_for_changes_unchanged_witness :
    ((([("a", "h")] : List (String × String)).map Prod.fst).Nodup) ∧
    (∀ f, assocGet ([("a", "h")] : List (String × String)) f = assocGet [("a", "h")] f) ∧
    (check_for_changes ⟨[("a", "h")], build_merkle_dag [("a", "h")]⟩ [("a", "h")]).1 =
      ⟨[], [], []⟩ :=
  ⟨by decide, fun _ => rfl,
    check_for_changes_unchanged ⟨[("a", "h")], build_merkle_dag [("a", "h")]⟩
      [("a", "h")] (by decide) (fun _ => rfl)⟩

/-- C4 counterexample: two file-hash maps that are equal as maps (one is a
permutation of the other, with distinct keys) but whose root-node data
differ, because the root data concatenates the hashes in map iteration
order. -/
theorem build_merkle_dag_root_counterexample :
    (([("a", "h1"), ("b", "h2")] : List (String × String)).Perm
      [("b", "h2"), ("a", "h1")]) ∧
    (([("a", "h1"), ("b", "h2")] : List (String × String)).map Prod.fst).Nodup ∧
    rootNodeData [("a", "h1"), ("b", "h2")] ≠ rootNodeData [("b", "h2"), ("a", "h1")] :=
  ⟨by decide, by decide, by decide⟩

/-- C4 amended: for two file-hash maps that are equal as maps, the leaf-node
data sequence (added in sorted-by-path order) is identical; the root-node
data additionally depends on the iteration order of the hashes, so the whole
DAG is identical exactly when the root data also agree. -/
theorem build_merkle_dag_deterministic (e1 e2 : List (String × String))
    (hnd : (e1.map Prod.fst).Nodup) (hperm : e1.Perm e2) :
    leafDataSeq e1 = leafDataSeq e2 ∧
    (rootNodeData e1 = rootNodeData e2 → build_merkle_dag e1 = build_merkle_dag e2) := by
  have hkeysperm : (e1.map Prod.fst).Perm (e2.map Prod.fst) := hperm.map _
  have hsort : sortStrings (e1.map Prod.fst) = sortStrings (e2.map Prod.fst) := by
    apply List.eq_of_perm_of_sorted
      (r := fun a b : String => a ≤ b)
      (((List.perm_insertionSort _ _).trans hkeysperm).trans
        (List.perm_insertionSort _ _).symm)
    · exact List.sorted_insertionSort _ _
    · exact List.sorted_insertionSort _ _
  have hleaf : leafDataSeq e1 = leafDataSeq e2 := by
    unfold leafDataSeq
    rw [hsort]
    apply List.map_congr_left
    intro path _
    rw [assocGet_perm hperm hnd path]
  refine ⟨hleaf, fun hroot => ?_⟩
  unfold build_merkle_dag
  rw [hroot, hleaf]

/-- Witness for `build_merkle_dag_deterministic` at a two-entry map and a
permutation of it. -/
theorem build_merkle_dag_deterministic_witness :
    ((([("b", "2"), ("a", "1")] : List (String × String)).map Prod.fst).Nodup) ∧
    (([("b", "2"), ("a", "1")] : List (String × String)).Perm [("a", "1"), ("b", "2")]) ∧
    (leafDataSeq [("b", "2"), ("a", "1")] = leafDataSeq [("a", "1"), ("b", "2")] ∧
      (rootNodeData [("b", "2"), ("a", "1")] = rootNodeData [("a", "1"), ("b", "2")] →
        build_merkle_dag [("b", "2"), ("a", "1")] =
          build_merkle_dag [("a", "1"), ("b", "2")])) :=
  ⟨by decide, by decide,
    build_merkle_dag_deterministic [("b", "2"), ("a", "1")] [("a", "1"), ("b", "2")]
      (by decide) (by decide)⟩

/-! ## AST splitter (`src/ast/splitter.rs`)

Chunk contents are modelled as their UTF-8 byte sequences (`List Nat`),
matching the byte-position arithmetic of the Rust code. -/

/-- `ChunkMetadata`. -/
structure ChunkMetadata where
  file_extension : String
  chunk_index : Nat
  hash : String
deriving DecidableEq

/-- `CodeChunk`; `content` holds the UTF-8 bytes of the Rust string. -/
structure CodeChunk where
  id : String
  content : List Nat
  file_path : String
  relative_path : String
  start_line : Nat
  end_line : Nat
  language : String
  metadata : ChunkMetadata
deriving DecidableEq

instance : Inhabited CodeChunk := ⟨⟨"", [], "", "", 0, 0, "", ⟨"", 0, ""⟩⟩⟩

/-- `ChunkContext` plus the values the chunk constructors read from the path:
`file_path` is the result of `to_string_lossy` and `file_extension` the
result of `extension()` on it (path parsing is the standard library). -/
structure ChunkContext where
  language : String
  file_path : String
  relative_path : String
  file_extension : String

/-- ASCII decimal digits of a natural number (`usize::to_string` bytes);
the first argument is recursion fuel, always sufficient at `n + 1`. -/
def natDecAux : Nat → Nat → List Nat
  | 0, _ => []
  | fuel + 1, n => if n < 10 then [48 + n] else natDecAux fuel (n / 10) ++ [48 + n % 10]

/-- Byte string of the decimal rendering of a natural number. -/
def natDecBytes (n : Nat) : List Nat := natDecAux (n + 1) n

/-- The chunk id digest: hex SHA-256 of
`file_path ∥ ":" ∥ start_line ∥ ":" ∥ end_line` (58 is the colon byte),
exactly the hasher-update sequence of `create_code_chunk`. -/
def chunkId (file_path : String) (start_line end_line : Nat) : String :=
  sha256Hex (strBytes file_path ++ 58 :: natDecBytes start_line ++ 58 :: natDecBytes end_line)

/-- `AstSplitter::create_code_chunk`. -/
def create_code_chunk (content : List Nat) (start_line end_line chunk_index : Nat)
    (ctx : ChunkContext) : CodeChunk :=
  { id := chunkId ctx.file_path start_line end_line
    content := content
    file_path := ctx.file_path
    relative_path := ctx.relative_path
    start_line := start_line
    end_line := end_line
    language := ctx.language
    metadata := ⟨ctx.file_extension, chunk_index, sha256Hex content⟩ }

/-- `str::is_char_boundary` on the byte model: position zero, one past the
end, or a byte that is not a UTF-8 continuation byte. -/
def isCharBoundary (bytes : List Nat) (i : Nat) : Bool :=
  if i = 0 then true
  else
    match bytes[i]? with
    | some b => decide (b < 128 ∨ 192 ≤ b)
    | none => decide (i = bytes.length)

/-- The forward boundary-search loop
`while pos < len && !content.is_char_boundary(pos) \x7b pos += 1; \x7d`,
with explicit fuel (the wrapper supplies enough). -/
def advanceWhile (bytes : List Nat) : Nat → Nat → Nat
  | 0, pos => pos
  | fuel + 1, pos =>
      if pos < bytes.length ∧ ¬ isCharBoundary bytes pos then
        advanceWhile bytes fuel (pos + 1)
      else pos

/-- Forward advance to a char boundary starting at `pos`; fuel
`bytes.length - pos` covers every iteration the Rust loop can make. -/
def advanceToBoundary (bytes : List Nat) (pos : Nat) : Nat :=
  advanceWhile bytes (bytes.length - pos) pos

/-- `str::lines().count()` on the byte model: zero on empty input, else the
number of newline bytes plus one unless the text ends with a newline. -/
def linesCount (bytes : List Nat) : Nat :=
  if bytes = [] then 0
  else bytes.count 10 + (if bytes.getLast? = some 10 then 0 else 1)

/-- The overlap text taken from the previous chunk: the final
`min(overlap, prev.len)` bytes, with the cut advanced forward to a char
boundary. -/
def overlapTextOf (overlap : Nat) (prev : List Nat) : List Nat :=
  let overlap_len := min overlap prev.length
  let target_start := if overlap_len < prev.length then prev.length - overlap_len else 0
  prev.drop (advanceToBoundary prev target_start)

/-- `AstSplitter::add_overlap_to_chunks`. For every chunk except the first,
the source prepends `overlap_text` followed by the two bytes `0x5C 0x6E`
(the Rust literal is `"\x5c\x5cn"`, an escaped backslash and the letter n),
and lowers `start_line` by `overlap_text.lines().count()` saturating at
zero; it then recomputes the id from the ORIGINAL `start_line`/`end_line`
of the chunk. -/
def add_overlap_to_chunks (overlap : Nat) (chunks : List CodeChunk) : List CodeChunk :=
  if chunks.length ≤ 1 ∨ overlap = 0 then chunks
  else
    chunks.enum.map (fun ie =>
      let i := ie.1
      let chunk := ie.2
      let adjusted :=
        if 0 < i ∧ 0 < overlap then
          let prev := chunks.getD (i - 1) chunk
          let overlap_text := overlapTextOf overlap prev.content
          (overlap_text ++ 92 :: 110 :: chunk.content,
            chunk.start_line - linesCount overlap_text)
        else (chunk.content, chunk.start_line)
      { chunk with
        id := chunkId chunk.file_path chunk.start_line chunk.end_line
        content := adjusted.1
        start_line := adjusted.2 })

/-- End position of the current fallback window: back the target end up to a
char boundary; if that lands on the window start, move forward instead. -/
def retreatWhile (bytes : List Nat) (lo : Nat) : Nat → Nat
  | 0 => 0
  | pos + 1 =>
      if lo < pos + 1 ∧ ¬ isCharBoundary bytes (pos + 1) then retreatWhile bytes lo pos
      else pos + 1

/-- The `end_pos` computation of one `split_with_fallback` iteration. -/
def fallbackEndPos (content : List Nat) (chunk_size byte_pos : Nat) : Nat :=
  let target_end := min (byte_pos + chunk_size) content.length
  let end1 := retreatWhile content byte_pos target_end
  if end1 = byte_pos then advanceToBoundary content (byte_pos + 1) else end1

/-- The `next_start` computation of one `split_with_fallback` iteration. -/
def fallbackNextStart (content : List Nat) (overlap : Nat) (byte_pos end_pos : Nat) : Nat :=
  if 0 < overlap ∧ overlap < end_pos then
    max (advanceToBoundary content (end_pos - overlap)) (byte_pos + 1)
  else end_pos

/-- The chunk built by one `split_with_fallback` iteration. -/
def fallbackChunk (content : List Nat) (ctx : ChunkContext)
    (byte_pos end_pos chunk_index : Nat) : CodeChunk :=
  let chunk_content := (content.take end_pos).drop byte_pos
  let text_before := content.take byte_pos
  let start_line := linesCount text_before + 1
  let end_line := start_line + max (linesCount chunk_content) 1 - 1
  { id := chunkId ctx.file_path start_line end_line
    content := chunk_content
    file_path := ctx.file_path
    relative_path := ctx.relative_path
    start_line := start_line
    end_line := end_line
    language := ctx.language
    metadata := ⟨ctx.file_extension, chunk_index, sha256Hex chunk_content⟩ }

/-- The `while byte_pos < content_len` loop of `split_with_fallback`, with
explicit fuel; each iteration strictly advances `byte_pos`, so fuel
`content.length` covers every iteration (proved below). -/
def fallbackLoop (chunk_size overlap : Nat) (content : List Nat) (ctx : ChunkContext) :
    Nat → Nat → Nat → List CodeChunk
  | 0, _, _ => []
  | fuel + 1, byte_pos, chunk_index =>
      if byte_pos < content.length then
        let end_pos := fallbackEndPos content chunk_size byte_pos
        let chunk := fallbackChunk content ctx byte_pos end_pos chunk_index
        if content.length ≤ end_pos then [chunk]
        else
          chunk :: fallbackLoop chunk_size overlap content ctx fuel
            (fallbackNextStart content overlap byte_pos end_pos) (chunk_index + 1)
      else []

/-- `AstSplitter::split_with_fallback`. -/
def split_with_fallback (chunk_size overlap : Nat) (content : List Nat)
    (ctx : ChunkContext) : List CodeChunk :=
  fallbackLoop chunk_size overlap content ctx content.length 0 0

theorem advanceWhile_ge (bytes : List Nat) :
    ∀ fuel pos, pos ≤ advanceWhile bytes fuel pos := by
  intro fuel
  induction fuel with
  | zero => intro pos; simp [advanceWhile]
  | succ n ih =>
      intro pos
      simp only [advanceWhile]
      split
      · exact le_trans (Nat.le_succ pos) (ih (pos + 1))
      · exact le_refl pos

theorem advanceToBoundary_ge (bytes : List Nat) (pos : Nat) :
    pos ≤ advanceToBoundary bytes pos :=
  advanceWhile_ge bytes _ pos

theorem retreatWhile_ge (bytes : List Nat) (lo : Nat) :
    ∀ pos, lo ≤ pos → lo ≤ retreatWhile bytes lo pos := by
  intro pos
  induction pos with
  | zero => intro h; simpa [retreatWhile] using h
  | succ p ih =>
      intro h
      simp only [retreatWhile]
      split
      · rename_i hc
        exact ih (by omega)
      · exact h

theorem fallbackEndPos_gt (content : List Nat) (cs pos : Nat) (h : pos < content.length) :
    pos + 1 ≤ fallbackEndPos content cs pos := by
  simp only [fallbackEndPos]
  have htl : pos ≤ min (pos + cs) content.length := le_min (Nat.le_add_right _ _) (le_of_lt h)
  have h1 : pos ≤ retreatWhile content pos (min (pos + cs) content.length) :=
    retreatWhile_ge content pos _ htl
  split
  · exact advanceToBoundary_ge content (pos + 1)
  · rename_i hne
    omega

theorem fallbackNextStart_gt (content : List Nat) (ov pos ep : Nat) (hep : pos + 1 ≤ ep) :
    pos + 1 ≤ fallbackNextStart content ov pos ep := by
  unfold fallbackNextStart
  split
  · exact le_max_right _ _
  · exact hep

theorem fallbackLoop_fuel (cs ov : Nat) (content : List Nat) (ctx : ChunkContext) :
    ∀ fuel1 fuel2 pos ci, content.length - pos ≤ fuel1 → content.length - pos ≤ fuel2 →
      fallbackLoop cs ov content ctx fuel1 pos ci = fallbackLoop cs ov content ctx fuel2 pos ci := by
  intro fuel1
  induction fuel1 with
  | zero =>
      intro fuel2 pos ci h1 h2
      have hpos : ¬ pos < content.length := by omega
      cases fuel2 with
      | zero => rfl
      | succ m => simp [fallbackLoop, hpos]
  | succ n ih =>
      intro fuel2 pos ci h1 h2
      cases fuel2 with
      | zero =>
          have hpos : ¬ pos < content.length := by omega
          simp [fallbackLoop, hpos]
      | succ m =>
          simp only [fallbackLoop]
          by_cases hp : pos < content.length
          · rw [if_pos hp, if_pos hp]
            by_cases hend : content.length ≤ fallbackEndPos content cs pos
            · rw [if_pos hend, if_pos hend]
            · rw [if_neg hend, if_neg hend]
              congr 1
              have hprog : pos + 1 ≤
                  fallbackNextStart content ov pos (fallbackEndPos content cs pos) :=
                fallbackNextStart_gt content ov pos _ (fallbackEndPos_gt content cs pos hp)
              exact ih m _ _ (by omega) (by omega)
          · rw [if_neg hp, if_neg hp]

/-- C10: the character-window fallback splitter terminates on every input:
whenever the window start is inside the content, the chosen end position is
at least `byte_pos + 1` and the next start is also at least `byte_pos + 1`
(it is `max(safe_start, byte_pos + 1)` in the overlap branch and the end
position otherwise), so the loop makes strict progress and fuel
`content.length` computes the fixed point: any fuel of at least
`content.length` yields the same chunk list, for every content, chunk size
and overlap — including `overlap ≥ chunk_size`. -/
theorem split_with_fallback_total (cs ov : Nat) (content : List Nat) (ctx : ChunkContext) :
    (∀ pos, pos < content.length →
      pos + 1 ≤ fallbackEndPos content cs pos ∧
      pos + 1 ≤ fallbackNextStart content ov pos (fallbackEndPos content cs pos)) ∧
    (∀ fuel, content.length ≤ fuel →
      fallbackLoop cs ov content ctx fuel 0 0 = split_with_fallback cs ov content ctx) := by
  constructor
  · intro pos hpos
    have h1 := fallbackEndPos_gt content cs pos hpos
    exact ⟨h1, fallbackNextStart_gt content ov pos _ h1⟩
  · intro fuel hf
    exact fallbackLoop_fuel cs ov content ctx fuel content.length 0 0 (by omega) (by omega)

/-- A concrete chunk context shared by the executable examples. -/
def ctxF : ChunkContext := ⟨"rust", "f", "f", "rs"⟩

/-- Witness for `split_with_fallback_total` with overlap larger than the
chunk size on a two-byte content. -/
theorem split_with_fallback_total_witness :
    ((0 : Nat) < ([65, 66] : List Nat).length) ∧
    (0 + 1 ≤ fallbackEndPos [65, 66] 1 0 ∧
      0 + 1 ≤ fallbackNextStart [65, 66] 5 0 (fallbackEndPos [65, 66] 1 0)) ∧
    (([65, 66] : List Nat).length ≤ 7) ∧
    fallbackLoop 1 5 [65, 66] ctxF 7 0 0 = split_with_fallback 1 5 [65, 66] ctxF :=
  ⟨by decide, (split_with_fallback_total 1 5 [65, 66] ctxF).1 0 (by decide), by decide,
    (split_with_fallback_total 1 5 [65, 66] ctxF).2 7 (by decide)⟩

theorem add_overlap_entry (ov : Nat) (chunks : List CodeChunk) (hlen : 1 < chunks.length)
    (hov : 0 < ov) (i : Nat) (h : i < chunks.length) (hi : 0 < i) :
    (add_overlap_to_chunks ov chunks)[i]? = some
      { chunks[i] with
        id := chunkId chunks[i].file_path chunks[i].start_line chunks[i].end_line
        content := overlapTextOf ov (chunks[i - 1]).content ++
          92 :: 110 :: chunks[i].content
        start_line := chunks[i].start_line -
          linesCount (overlapTextOf ov (chunks[i - 1]).content) } := by
  have hcond : ¬ (chunks.length ≤ 1 ∨ ov = 0) := by
    push_neg
    exact ⟨by omega, by omega⟩
  have h1 : i - 1 < chunks.length := by omega
  unfold add_overlap_to_chunks
  rw [if_neg hcond]
  rw [List.getElem?_map, List.getElem?_enum, List.getElem?_eq_getElem h]
  dsimp only [Option.map]
  rw [if_pos (And.intro hi hov), List.getD_eq_getElem _ _ h1]

theorem add_overlap_entry_zero (ov : Nat) (chunks : List CodeChunk)
    (hlen : 1 < chunks.length) (hov : 0 < ov) :
    (add_overlap_to_chunks ov chunks)[0]? = some
      { chunks[0] with
        id := chunkId chunks[0].file_path chunks[0].start_line chunks[0].end_line } := by
  have hcond : ¬ (chunks.length ≤ 1 ∨ ov = 0) := by
    push_neg
    exact ⟨by omega, by omega⟩
  have h0 : 0 < chunks.length := by omega
  unfold add_overlap_to_chunks
  rw [if_neg hcond]
  rw [List.getElem?_map, List.getElem?_enum, List.getElem?_eq_getElem h0]
  dsimp only [Option.map]
  rw [if_neg (by omega : ¬ ((0:Nat) < 0 ∧ 0 < ov))]

theorem fallbackLoop_id (cs ov : Nat) (content : List Nat) (ctx : ChunkContext) :
    ∀ fuel pos ci c, c ∈ fallbackLoop cs ov content ctx fuel pos ci →
      c.id = chunkId ctx.file_path c.start_line c.end_line := by
  intro fuel
  induction fuel with
  | zero => intro pos ci c hc; cases hc
  | succ n ih =>
      intro pos ci c hc
      simp only [fallbackLoop] at hc
      by_cases hp : pos < content.length
      · rw [if_pos hp] at hc
        by_cases he : content.length ≤ fallbackEndPos content cs pos
        · rw [if_pos he] at hc
          rw [List.mem_singleton.mp hc]
          rfl
        · rw [if_neg he] at hc
          rcases List.mem_cons.mp hc with rfl | hc2
          · rfl
          · exact ih _ _ _ hc2
      · rw [if_neg hp] at hc
        cases hc

/-- C2 (amended): every chunk id is the hex SHA-256 digest of
`absolute_path ∥ ":" ∥ start_line ∥ ":" ∥ end_line` computed from the line
span at chunk creation. `create_code_chunk` and every chunk of the fallback
path stamp the id from the very same span they store; but
`add_overlap_to_chunks` recomputes the id from the original (pre-overlap)
`start_line` and `end_line` of the chunk while storing a lowered
`start_line`, so for overlap-adjusted chunks the digest matches the
pre-overlap span, not the stored one. -/
theorem chunk_id_digest_spec :
    (∀ (content : List Nat) (s e j : Nat) (ctx : ChunkContext),
      (create_code_chunk content s e j ctx).id = chunkId ctx.file_path s e ∧
      (create_code_chunk content s e j ctx).start_line = s ∧
      (create_code_chunk content s e j ctx).end_line = e) ∧
    (∀ (cs ov : Nat) (content : List Nat) (ctx : ChunkContext) (c : CodeChunk),
      c ∈ split_with_fallback cs ov content ctx →
      c.id = chunkId ctx.file_path c.start_line c.end_line) ∧
    (∀ (ov : Nat) (chunks : List CodeChunk) (i : Nat) (h : i < chunks.length),
      1 < chunks.length → 0 < ov → 0 < i →
      ∃ c, (add_overlap_to_chunks ov chunks)[i]? = some c ∧
        c.id = chunkId chunks[i].file_path chunks[i].start_line chunks[i].end_line ∧
        c.end_line = chunks[i].end_line ∧
        c.file_path = chunks[i].file_path) := by
  refine ⟨?_, ?_, ?_⟩
  · intro content s e j ctx
    exact ⟨rfl, rfl, rfl⟩
  · intro cs ov content ctx c hc
    exact fallbackLoop_id cs ov content ctx content.length 0 0 c hc
  · intro ov chunks i h hlen hov hi
    exact ⟨_, add_overlap_entry ov chunks hlen hov i h hi, rfl, rfl, rfl⟩

/-- Chunk with content `"x\ny"` spanning lines 1–2, as created by
`create_code_chunk`. -/
def chunkX : CodeChunk := create_code_chunk [120, 10, 121] 1 2 0 ctxF

/-- Chunk with content `"z"` at line 3, as created by `create_code_chunk`. -/
def chunkZ : CodeChunk := create_code_chunk [122] 3 3 1 ctxF

/-- Chunk with content `"abc"` at line 1, as created by `create_code_chunk`. -/
def chunkA : CodeChunk := create_code_chunk [97, 98, 99] 1 1 0 ctxF

/-- Chunk with content `"z"` at line 2, as created by `create_code_chunk`. -/
def chunkB : CodeChunk := create_code_chunk [122] 2 2 1 ctxF

set_option maxRecDepth 1000000 in
/-- C2 counterexample: with overlap 5 the second chunk has the whole
two-line previous content prepended; it stores `start_line = 1` and
`end_line = 3`, yet its id is the digest of the pre-overlap span `3:3`,
not of the stored span `1:3`. -/
theorem chunk_id_stored_span_counterexample :
    ((add_overlap_to_chunks 5 [chunkX, chunkZ]).getD 1 default).start_line = 1 ∧
    ((add_overlap_to_chunks 5 [chunkX, chunkZ]).getD 1 default).end_line = 3 ∧
    ((add_overlap_to_chunks 5 [chunkX, chunkZ]).getD 1 default).file_path = "f" ∧
    ((add_overlap_to_chunks 5 [chunkX, chunkZ]).getD 1 default).id = chunkId "f" 3 3 ∧
    ((add_overlap_to_chunks 5 [chunkX, chunkZ]).getD 1 default).id ≠ chunkId "f" 1 3 := by
  refine ⟨?_, ?_, ?_, ?_, ?_⟩ <;> decide

/-- Witness for `chunk_id_digest_spec` on a concrete two-chunk overlap run. -/
theorem chunk_id_digest_spec_witness :
    (1 < ([chunkX, chunkZ] : List CodeChunk).length) ∧ ((0 : Nat) < 5) ∧ ((0 : Nat) < 1) ∧
    (∃ c, (add_overlap_to_chunks 5 [chunkX, chunkZ])[1]? = some c ∧
      c.id = chunkId ([chunkX, chunkZ] : List CodeChunk)[1].file_path
        ([chunkX, chunkZ] : List CodeChunk)[1].start_line
        ([chunkX, chunkZ] : List CodeChunk)[1].end_line ∧
      c.end_line = ([chunkX, chunkZ] : List CodeChunk)[1].end_line ∧
      c.file_path = ([chunkX, chunkZ] : List CodeChunk)[1].file_path) :=
  ⟨by decide, by decide, by decide,
    chunk_id_digest_spec.2.2 5 [chunkX, chunkZ] 1 (by decide) (by decide) (by decide)
      (by decide)⟩

/-- C6 (amended): when `overlap > 0` and there is more than one chunk,
every chunk except the first gets the final `min(overlap, prev.len)` bytes
of the previous chunk (cut advanced forward to a UTF-8 boundary) prepended
FOLLOWED BY the two bytes `0x5C 0x6E` (a literal backslash and the letter
n — the Rust format string is an escaped backslash), and its `start_line`
is lowered by `overlap_text.lines().count()` — the number of lines of the
overlap text, not the number of newline bytes — saturating at zero; the
first chunk keeps its content and start line. -/
theorem add_overlap_spec (ov : Nat) (chunks : List CodeChunk)
    (hlen : 1 < chunks.length) (hov : 0 < ov) :
    (add_overlap_to_chunks ov chunks).length = chunks.length ∧
    (∃ c0, (add_overlap_to_chunks ov chunks)[0]? = some c0 ∧
      c0.content = chunks[0].content ∧ c0.start_line = chunks[0].start_line) ∧
    (∀ (i : Nat) (h : i < chunks.length), 0 < i →
      ∃ c, (add_overlap_to_chunks ov chunks)[i]? = some c ∧
        c.content = overlapTextOf ov (chunks[i - 1]).content ++
          92 :: 110 :: chunks[i].content ∧
        c.start_line = chunks[i].start_line -
          linesCount (overlapTextOf ov (chunks[i - 1]).content)) := by
  have hcond : ¬ (chunks.length ≤ 1 ∨ ov = 0) := by
    push_neg
    exact ⟨by omega, by omega⟩
  refine ⟨?_, ?_, ?_⟩
  · unfold add_overlap_to_chunks
    rw [if_neg hcond]
    simp [List.length_map, List.enum_length]
  · exact ⟨_, add_overlap_entry_zero ov chunks hlen hov, rfl, rfl⟩
  · intro i h hi
    exact ⟨_, add_overlap_entry ov chunks hlen hov i h hi, rfl, rfl⟩

set_option maxRecDepth 1000000 in
/-- C6 counterexample: with overlap 2 over chunks `"abc"` (line 1) and
`"z"` (line 2), the overlap text is `"bc"` with zero newline bytes, yet the
second output chunk is `"bc\x5cnz"` (backslash-n separator bytes 92, 110
inserted, so not the overlap text directly prepended) and its start line
drops from 2 to 1 even though the prepended text contains no newline. -/
theorem add_overlap_prepend_counterexample :
    overlapTextOf 2 chunkA.content = [98, 99] ∧
    List.count 10 (overlapTextOf 2 chunkA.content) = 0 ∧
    chunkB.start_line = 2 ∧
    ((add_overlap_to_chunks 2 [chunkA, chunkB]).getD 1 default).content =
      [98, 99, 92, 110, 122] ∧
    ((add_overlap_to_chunks 2 [chunkA, chunkB]).getD 1 default).content ≠
      overlapTextOf 2 chunkA.content ++ chunkB.content ∧
    ((add_overlap_to_chunks 2 [chunkA, chunkB]).getD 1 default).start_line = 1 := by
  refine ⟨?_, ?_, ?_, ?_, ?_, ?_⟩ <;> decide

/-- Witness for `add_overlap_spec` on a concrete two-chunk run. -/
theorem add_overlap_spec_witness :
    (1 < ([chunkA, chunkB] : List CodeChunk).length) ∧ ((0 : Nat) < 2) ∧
    (add_overlap_to_chunks 2 [chunkA, chunkB]).length =
      ([chunkA, chunkB] : List CodeChunk).length :=
  ⟨by decide, by decide, (add_overlap_spec 2 [chunkA, chunkB] (by decide) (by decide)).1⟩

/-! ## Full-index chunk accumulation (`src/handlers/index.rs`) -/

/-- The file loop of `start_background_indexing`: per file, append the whole
chunk list produced for that file, then break once the accumulated count
reaches 450,000. Files whose processing failed are skipped by the source
and are simply absent from the input list. -/
def accumulateChunks : List CodeChunk → List (List CodeChunk) → List CodeChunk
  | all_chunks, [] => all_chunks
  | all_chunks, file_chunks :: rest =>
      if 450000 ≤ (all_chunks ++ file_chunks).length then all_chunks ++ file_chunks
      else accumulateChunks (all_chunks ++ file_chunks) rest

/-- The accumulated chunk list of a full index run over the per-file chunk
lists. -/
def fullIndexChunks (files : List (List CodeChunk)) : List CodeChunk :=
  accumulateChunks [] files

/-- The terminal `index_status` of `IndexStats` in
`start_background_indexing`. -/
def index_status (all_chunks : List CodeChunk) : String :=
  if 450000 ≤ all_chunks.length then "limit_reached" else "completed"

/-- Number of files consumed by the accumulation loop before it stops, given
the chunk count accumulated so far. -/
def stopCount : Nat → List (List CodeChunk) → Nat
  | _, [] => 0
  | acc, f :: rest =>
      if 450000 ≤ acc + f.length then 1 else stopCount (acc + f.length) rest + 1

theorem accumulateChunks_eq :
    ∀ (files : List (List CodeChunk)) (acc : List CodeChunk),
      accumulateChunks acc files = acc ++ (files.take (stopCount acc.length files)).flatten := by
  intro files
  induction files with
  | nil => intro acc; simp [accumulateChunks, stopCount]
  | cons f rest ih =>
      intro acc
      simp only [accumulateChunks, stopCount, List.length_append]
      by_cases hc : 450000 ≤ acc.length + f.length
      · rw [if_pos hc, if_pos hc]
        simp
      · rw [if_neg hc, if_neg hc, ih (acc ++ f)]
        simp only [List.length_append, List.take_succ_cons, List.flatten_cons,
          List.append_assoc]

theorem stopCount_le : ∀ (files : List (List CodeChunk)) (a : Nat),
    stopCount a files ≤ files.length := by
  intro files
  induction files with
  | nil => intro a; simp [stopCount]
  | cons f rest ih =>
      intro a
      simp only [stopCount, List.length_cons]
      split
      · omega
      · have := ih (a + f.length)
        omega

theorem stopCount_min : ∀ (files : List (List CodeChunk)) (a : Nat), a < 450000 →
    ∀ j, j < stopCount a files → a + ((files.take j).flatten).length < 450000 := by
  intro files
  induction files with
  | nil => intro a ha j hj; simp [stopCount] at hj
  | cons f rest ih =>
      intro a ha j hj
      simp only [stopCount] at hj
      by_cases hc : 450000 ≤ a + f.length
      · rw [if_pos hc] at hj
        have hj0 : j = 0 := by omega
        subst hj0
        simpa using ha
      · rw [if_neg hc] at hj
        cases j with
        | zero => simpa using ha
        | succ j2 =>
            have hj2 : j2 < stopCount (a + f.length) rest := by omega
            have := ih (a + f.length) (by omega) j2 hj2
            simp only [List.take_succ_cons, List.flatten_cons, List.length_append]
            omega

theorem stopCount_hit : ∀ (files : List (List CodeChunk)) (a : Nat),
    stopCount a files < files.length →
    450000 ≤ a + ((files.take (stopCount a files)).flatten).length := by
  intro files
  induction files with
  | nil => intro a ha; simp [stopCount] at ha
  | cons f rest ih =>
      intro a ha
      simp only [stopCount] at ha ⊢
      by_cases hc : 450000 ≤ a + f.length
      · rw [if_pos hc]
        simpa using hc
      · rw [if_neg hc] at ha ⊢
        simp only [List.length_cons] at ha
        have hlt : stopCount (a + f.length) rest < rest.length := by omega
        have := ih (a + f.length) hlt
        simp only [List.take_succ_cons, List.flatten_cons, List.length_append]
        omega

/-- C5 (amended): the accumulation loop stops after the first file whose
processing brings the accumulated chunk count to 450,000 or more, keeping
every chunk of that file: the result is the concatenation of a whole-file
prefix, every proper stage of which was below the cap; when the loop stops
early the final count is at least 450,000 — so it can exceed 450,000 when
one file straddles the boundary — and the terminal `index_status` is
`"limit_reached"` exactly when the final count reached 450,000, else
`"completed"`. -/
theorem chunk_cap_spec (files : List (List CodeChunk)) :
    fullIndexChunks files = (files.take (stopCount 0 files)).flatten ∧
    stopCount 0 files ≤ files.length ∧
    (∀ j, j < stopCount 0 files → ((files.take j).flatten).length < 450000) ∧
    (stopCount 0 files < files.length →
      450000 ≤ ((files.take (stopCount 0 files)).flatten).length) ∧
    index_status (fullIndexChunks files) =
      (if 450000 ≤ (fullIndexChunks files).length then "limit_reached" else "completed") := by
  refine ⟨?_, stopCount_le files 0, ?_, ?_, rfl⟩
  · have := accumulateChunks_eq files []
    simpa [fullIndexChunks] using this
  · intro j hj
    have := stopCount_min files 0 (by omega) j hj
    simpa using this
  · intro hlt
    have := stopCount_hit files 0 hlt
    simpa using this

/-- Witness for `chunk_cap_spec`: a two-file run where the second file
straddles the cap. -/
theorem chunk_cap_spec_witness :
    ((0 : Nat) < 450000) ∧
    fullIndexChunks [[default], [default]] =
      (([[default], [default]] : List (List CodeChunk)).take
        (stopCount 0 [[default], [default]])).flatten :=
  ⟨by decide, (chunk_cap_spec [[default], [default]]).1⟩

/-- C5 counterexample: a file list whose first file yields 449,999 chunks
and whose second yields two more; the loop appends the whole second file,
so the accumulated list holds 450,001 chunks — the 450,001st chunk is
included and the list grows past the hard cap (while the status is still
`"limit_reached"`). -/
theorem chunk_cap_counterexample :
    (fullIndexChunks [List.replicate 449999 default, [default, default]]).length = 450001 ∧
    index_status (fullIndexChunks [List.replicate 449999 default, [default, default]]) =
      "limit_reached" := by
  have hstop :
      stopCount 0 [List.replicate 449999 (default : CodeChunk), [default, default]] = 2 := by
    rw [stopCount, List.length_replicate, if_neg (by omega), stopCount,
      List.length_cons, List.length_cons, List.length_nil, if_pos (by omega)]
  have htake :
      List.take 2 [List.replicate 449999 (default : CodeChunk), [default, default]] =
      [List.replicate 449999 (default : CodeChunk), [default, default]] := rfl
  have hlen :
      (fullIndexChunks [List.replicate 449999 (default : CodeChunk),
        [default, default]]).length = 450001 := by
    unfold fullIndexChunks
    rw [accumulateChunks_eq, List.length_nil, hstop, htake, List.nil_append]
    simp only [List.flatten_cons, List.flatten_nil, List.length_append,
      List.length_replicate, List.length_cons, List.length_nil]
  refine ⟨hlen, ?_⟩
  unfold index_status
  rw [hlen, if_pos (by omega)]

/-! ## Vector store (`src/vectordb/usearch_db.rs`)

The usearch index behind the FFI boundary is modelled by its size and
reserved capacity (`add` succeeds while size is below capacity); raw search
results of the native index are an oracle parameter. Vector elements are an
abstract type — the checked paths only ever read vector lengths. -/

/-- `VectorDocument`. -/
structure VectorDocument (α : Type) where
  id : String
  vector : List α
deriving DecidableEq

/-- Operations issued to the native usearch index by `insert`, in order. -/
inductive IndexOp (α : Type)
  | reserve (capacity : Nat)
  | add (internal_id : Nat) (vector : List α)
deriving DecidableEq

/-- The state of `USearchDatabase` (paths and the on-disk file are I/O and
out of scope). -/
structure USearchDatabase (α : Type) where
  size : Nat
  capacity : Nat
  dimension : Nat
  id_map : List (String × Nat)
  reverse_id_map : List (Nat × String)
  next_id : Nat

/-- `USearchDatabase::get_or_create_internal_id`. -/
def get_or_create_internal_id {α : Type} (db : USearchDatabase α) (string_id : String) :
    Nat × USearchDatabase α :=
  match assocGet db.id_map string_id with
  | some id => (id, db)
  | none =>
      (db.next_id,
        { db with
          id_map := assocInsert db.id_map string_id db.next_id
          reverse_id_map := assocInsert db.reverse_id_map db.next_id string_id
          next_id := db.next_id + 1 })

/-- `Index::add` of the native index: fails when no reserved slot is left. -/
def usearchAdd {α : Type} (db : USearchDatabase α) : Except String (USearchDatabase α) :=
  if db.size < db.capacity then Except.ok { db with size := db.size + 1 }
  else Except.error "Failed to add vector"

/-- The document loop of `USearchDatabase::insert`: per document, check the
dimension, resolve the internal id, then `add`; returns the outcome and the
`add` operations issued. -/
def insertLoop {α : Type} (db : USearchDatabase α) :
    List (VectorDocument α) → Except String (USearchDatabase α) × List (IndexOp α)
  | [] => (Except.ok db, [])
  | doc :: rest =>
      if doc.vector.length ≠ db.dimension then
        (Except.error ("Vector dimension mismatch: expected " ++ toString db.dimension ++
          ", got " ++ toString doc.vector.length), [])
      else
        let step := get_or_create_internal_id db doc.id
        match usearchAdd step.2 with
        | Except.error e => (Except.error e, [IndexOp.add step.1 doc.vector])
        | Except.ok db2 =>
            let rec2 := insertLoop db2 rest
            (rec2.1, IndexOp.add step.1 doc.vector :: rec2.2)

/-- `USearchDatabase::insert`: reserve capacity `current_size + len(docs)`
first, then run the document loop. -/
def usearchInsert {α : Type} (db : USearchDatabase α) (documents : List (VectorDocument α)) :
    Except String (USearchDatabase α) × List (IndexOp α) :=
  let needed_capacity := db.size + documents.length
  let l := insertLoop { db with capacity := max db.capacity needed_capacity } documents
  (l.1, IndexOp.reserve needed_capacity :: l.2)

/-- `USearchDatabase::search`; `raw` is the (internal id, distance) list the
native index returns for the query. -/
def usearchSearch {α : Type} (db : USearchDatabase α) (query_vector : List α)
    (raw : List (Nat × ℚ)) : Except String (List VectorResult) :=
  if query_vector.length ≠ db.dimension then
    Except.error ("Query vector dimension mismatch: expected " ++ toString db.dimension ++
      ", got " ++ toString query_vector.length)
  else
    Except.ok (raw.filterMap (fun kv =>
      match assocGet db.reverse_id_map kv.1 with
      | some string_id => some ⟨string_id, 1 - kv.2⟩
      | none => none))

theorem get_or_create_dimension {α : Type} (db : USearchDatabase α) (sid : String) :
    (get_or_create_internal_id db sid).2.dimension = db.dimension := by
  unfold get_or_create_internal_id
  split <;> rfl

theorem usearchAdd_dimension {α : Type} {db db2 : USearchDatabase α}
    (h : usearchAdd db = Except.ok db2) : db2.dimension = db.dimension := by
  unfold usearchAdd at h
  split at h
  · cases h; rfl
  · cases h

theorem insertLoop_error_of_bad_doc {α : Type} :
    ∀ (docs : List (VectorDocument α)) (db : USearchDatabase α),
      (∃ doc ∈ docs, doc.vector.length ≠ db.dimension) →
      ∃ e, (insertLoop db docs).1 = Except.error e := by
  intro docs
  induction docs with
  | nil =>
      intro db hbad
      rcases hbad with ⟨doc, hm, _⟩
      cases hm
  | cons d rest ih =>
      intro db hbad
      by_cases hd : d.vector.length ≠ db.dimension
      · refine ⟨"Vector dimension mismatch: expected " ++ toString db.dimension ++
          ", got " ++ toString d.vector.length, ?_⟩
        simp only [insertLoop, if_pos hd]
      · simp only [insertLoop, if_neg hd]
        rcases hbad with ⟨doc, hm, hlen⟩
        rcases List.mem_cons.mp hm with rfl | hm2
        · exact absurd hlen hd
        · cases hadd : usearchAdd (get_or_create_internal_id db d.id).2 with
          | error e => exact ⟨e, by simp [hadd]⟩
          | ok db2 =>
              have hdim : db2.dimension = db.dimension := by
                rw [usearchAdd_dimension hadd, get_or_create_dimension]
              rcases ih db2 ⟨doc, hm2, by rw [hdim]; exact hlen⟩ with ⟨e, he⟩
              exact ⟨e, by simp [hadd, he]⟩

theorem insertLoop_ops_are_adds {α : Type} :
    ∀ (docs : List (VectorDocument α)) (db : USearchDatabase α),
      ∀ op ∈ (insertLoop db docs).2, ∃ iid v, op = IndexOp.add iid v := by
  intro docs
  induction docs with
  | nil => intro db op hop; cases hop
  | cons d rest ih =>
      intro db op hop
      by_cases hd : d.vector.length ≠ db.dimension
      · simp only [insertLoop, if_pos hd] at hop
        cases hop
      · simp only [insertLoop, if_neg hd] at hop
        cases hadd : usearchAdd (get_or_create_internal_id db d.id).2 with
        | error e =>
            rw [hadd] at hop
            rcases List.mem_singleton.mp hop with rfl
            exact ⟨_, _, rfl⟩
        | ok db2 =>
            rw [hadd] at hop
            rcases List.mem_cons.mp hop with rfl | hop2
            · exact ⟨_, _, rfl⟩
            · exact ih db2 op hop2

/-- C7: for a store of recorded dimension `D`, a search whose query vector
length differs from `D` returns a `VectorDb` error (all failure paths of
this module construct `Error::VectorDb`; no panic), an insert of a batch
containing any wrong-length document returns a `VectorDb` error, and the
first operation insert issues to the native index is
`reserve(current_size + len(docs))`, before every `add` of the batch. -/
theorem usearch_dimension_checks {α : Type} (db : USearchDatabase α)
    (q : List α) (raw : List (Nat × ℚ)) (docs : List (VectorDocument α))
    (hq : q.length ≠ db.dimension)
    (hd : ∃ doc ∈ docs, doc.vector.length ≠ db.dimension) :
    (∃ e, usearchSearch db q raw = Except.error e) ∧
    (∃ e, (usearchInsert db docs).1 = Except.error e) ∧
    (usearchInsert db docs).2.head? = some (IndexOp.reserve (db.size + docs.length)) ∧
    (∀ op ∈ (usearchInsert db docs).2.tail, ∃ iid v, op = IndexOp.add iid v) := by
  refine ⟨⟨"Query vector dimension mismatch: expected " ++ toString db.dimension ++
      ", got " ++ toString q.length, by simp only [usearchSearch, if_pos hq]⟩, ?_, rfl, ?_⟩
  · rcases insertLoop_error_of_bad_doc docs
      { db with capacity := max db.capacity (db.size + docs.length) } hd with ⟨e, he⟩
    exact ⟨e, he⟩
  · intro op hop
    exact insertLoop_ops_are_adds docs _ op hop

/-- Witness for `usearch_dimension_checks`: dimension-3 store, length-1
query, one length-2 document. -/
theorem usearch_dimension_checks_witness :
    (([(1 : Nat)] : List Nat).length ≠ (⟨0, 0, 3, [], [], 0⟩ : USearchDatabase Nat).dimension) ∧
    (∃ doc ∈ ([⟨"a", [1, 2]⟩] : List (VectorDocument Nat)),
      doc.vector.length ≠ (⟨0, 0, 3, [], [], 0⟩ : USearchDatabase Nat).dimension) ∧
    ((∃ e, usearchSearch (⟨0, 0, 3, [], [], 0⟩ : USearchDatabase Nat) [1] [] =
        Except.error e) ∧
    (∃ e, (usearchInsert (⟨0, 0, 3, [], [], 0⟩ : USearchDatabase Nat) [⟨"a", [1, 2]⟩]).1 =
        Except.error e) ∧
    (usearchInsert (⟨0, 0, 3, [], [], 0⟩ : USearchDatabase Nat) [⟨"a", [1, 2]⟩]).2.head? =
      some (IndexOp.reserve ((⟨0, 0, 3, [], [], 0⟩ : USearchDatabase Nat).size + 1)) ∧
    (∀ op ∈ (usearchInsert (⟨0, 0, 3, [], [], 0⟩ : USearchDatabase Nat) [⟨"a", [1, 2]⟩]).2.tail,
      ∃ iid v, op = IndexOp.add iid v)) :=
  ⟨by decide, ⟨⟨"a", [1, 2]⟩, by decide, by decide⟩,
    usearch_dimension_checks (⟨0, 0, 3, [], [], 0⟩ : USearchDatabase Nat) [1] [] [⟨"a", [1, 2]⟩]
      (by decide) ⟨⟨"a", [1, 2]⟩, by decide, by decide⟩⟩

/-! ## Snapshot manager and handler guards
(`src/snapshot/mod.rs`, `src/handlers/index.rs`, `src/handlers/clear.rs`)

Handlers are modelled up to their response decision: path resolution and
the store operations are I/O, represented by outcome parameters; the
response constructors record which JSON field the handler emits and, for
`index`, whether a background task is spawned. -/

/-- `CodebaseInfo` of the snapshot manager. -/
inductive CodebaseInfo
  | indexed (indexed_files total_chunks : Nat) (index_status : String) (last_updated : String)
  | indexing (indexing_percentage : Nat) (last_updated : String)
  | indexFailed (error_message : String) (last_attempted_percentage : Option Nat)
      (last_updated : String)
deriving DecidableEq

/-- `SnapshotManager::is_indexing`. -/
def is_indexing (codebases : List (String × CodebaseInfo)) (path : String) : Bool :=
  match assocGet codebases path with
  | some (CodebaseInfo.indexing _ _) => true
  | _ => false

/-- `SnapshotManager::is_indexed`. -/
def is_indexed (codebases : List (String × CodebaseInfo)) (path : String) : Bool :=
  match assocGet codebases path with
  | some (CodebaseInfo.indexed _ _ _ _) => true
  | _ => false

/-- `SnapshotManager::get_indexed_codebases`. -/
def get_indexed_codebases (codebases : List (String × CodebaseInfo)) : List String :=
  codebases.filterMap (fun p =>
    match p.2 with
    | CodebaseInfo.indexed _ _ _ _ => some p.1
    | _ => none)

/-- `SnapshotManager::get_indexing_codebases`. -/
def get_indexing_codebases (codebases : List (String × CodebaseInfo)) : List String :=
  codebases.filterMap (fun p =>
    match p.2 with
    | CodebaseInfo.indexing _ _ => some p.1
    | _ => none)

/-- `HashMap::remove` on the association-list model
(`SnapshotManager::remove_codebase`). -/
def assocRemove {α β : Type} [DecidableEq α] : List (α × β) → α → List (α × β)
  | [], _ => []
  | p :: rest, k => if p.1 = k then rest else p :: assocRemove rest k

/-- An ASCII single quote, used by the Rust format strings. -/
def squote : String := String.singleton (Char.ofNat 39)

/-- The `handle_index_codebase` rejection message for a codebase already
being indexed. -/
def already_indexing_msg (path : String) : String :=
  "Codebase " ++ squote ++ path ++ squote ++
    " is already being indexed in the background. Please wait for completion."

/-- The `handle_clear_index` rejection message for an unindexed codebase. -/
def not_indexed_msg (path : String) : String :=
  "Codebase " ++ squote ++ path ++ squote ++ " is not indexed or being indexed."

/-- The `handle_clear_index` no-op message when nothing is indexed at all. -/
def no_codebases_msg : String := "No codebases are currently indexed or being indexed."

/-- Response of `handle_index_codebase`: an `"error"` JSON object (no task
spawned) or a `"message"` JSON object together with the spawned background
task for the path. -/
inductive IndexResponse
  | errorResp (msg : String)
  | started (path : String) (splitter : String)
deriving DecidableEq

/-- The response decision of `ToolHandlers::handle_index_codebase`:
splitter validation, then path validation (outcome of
`ensure_absolute_path`/`validate_codebase_path` passed as
`path_validation`), then the concurrent-indexing guard; only after all
three does it mark the snapshot and spawn `start_background_indexing`. -/
def handle_index_codebase (splitter : String) (path_validation : Option String)
    (absolute_path : String) (codebases : List (String × CodebaseInfo)) : IndexResponse :=
  if splitter ≠ "ast" ∧ splitter ≠ "langchain" then
    IndexResponse.errorResp ("Invalid splitter type " ++ squote ++ splitter ++ squote ++
      ". Must be " ++ squote ++ "ast" ++ squote ++ " or " ++ squote ++ "langchain" ++
      squote ++ ".")
  else
    match path_validation with
    | some e => IndexResponse.errorResp (e ++ ". Original input: " ++ squote ++
        absolute_path ++ squote)
    | none =>
        if is_indexing codebases absolute_path then
          IndexResponse.errorResp (already_indexing_msg absolute_path)
        else IndexResponse.started absolute_path splitter

/-- Substring containment of strings. -/
def containsSubstr (s pat : String) : Prop := ∃ a b, s = a ++ (pat ++ b)

theorem str_append_assoc (a b c : String) : a ++ b ++ c = a ++ (b ++ c) :=
  String.ext (by simp only [String.data_append, List.append_assoc])

theorem already_indexing_contains (path : String) :
    containsSubstr (already_indexing_msg path) "already being indexed" := by
  refine ⟨"Codebase " ++ squote ++ path ++ squote ++ " is ",
    " in the background. Please wait for completion.", ?_⟩
  have hlit : (" is already being indexed in the background. Please wait for completion."
      : String) = " is " ++ ("already being indexed" ++
        " in the background. Please wait for completion.") := by decide
  unfold already_indexing_msg
  rw [hlit]
  simp only [str_append_assoc]

/-- C8: an `index_codebase` call on a codebase whose snapshot status is
`Indexing` never reaches the spawn: whatever the splitter argument and the
path-validation outcome, the response is an `"error"` object (never
`started`), and on the path that reaches the guard the error string
contains `"already being indexed"`. -/
theorem index_already_indexing_rejected (path : String)
    (codebases : List (String × CodebaseInfo))
    (hidx : is_indexing codebases path = true) :
    (∀ splitter v, ∃ e, handle_index_codebase splitter v path codebases =
      IndexResponse.errorResp e) ∧
    handle_index_codebase "ast" none path codebases =
      IndexResponse.errorResp (already_indexing_msg path) ∧
    containsSubstr (already_indexing_msg path) "already being indexed" := by
  refine ⟨?_, ?_, already_indexing_contains path⟩
  · intro splitter v
    unfold handle_index_codebase
    by_cases hs : splitter ≠ "ast" ∧ splitter ≠ "langchain"
    · exact ⟨_, by rw [if_pos hs]⟩
    · rw [if_neg hs]
      cases v with
      | some e => exact ⟨_, rfl⟩
      | none => exact ⟨_, by rw [if_pos hidx]⟩
  · unfold handle_index_codebase
    rw [if_neg (by simp), if_pos hidx]

/-- Witness for `index_already_indexing_rejected` on a one-entry snapshot. -/
theorem index_already_indexing_rejected_witness :
    is_indexing [("p", CodebaseInfo.indexing 0 "t")] "p" = true ∧
    handle_index_codebase "ast" none "p" [("p", CodebaseInfo.indexing 0 "t")] =
      IndexResponse.errorResp (already_indexing_msg "p") :=
  ⟨by decide,
    (index_already_indexing_rejected "p" [("p", CodebaseInfo.indexing 0 "t")]
      (by decide)).2.1⟩

/-- Response of `handle_clear_index`: `messageResp`/`cleared` carry a
`"message"` JSON field (the latter after actually clearing, with the
remaining codebase counts), `errorResp` an `"error"` field. -/
inductive ClearResponse
  | messageResp (msg : String)
  | errorResp (msg : String)
  | cleared (msg : String) (remaining_indexed remaining_indexing : Nat)
deriving DecidableEq

/-- The response decision of `ToolHandlers::handle_clear_index`. I/O
outcomes are parameters: `path_validation` as in `handle_index_codebase`;
`vector_db_res`, `vector_clear_res`, `bm25_res`, `bm25_clear_res` are the
error outcomes (if any) of obtaining and clearing the two stores; the
metadata clear is logged but never fails the request. -/
def handle_clear_index (codebases : List (String × CodebaseInfo))
    (path_validation : Option String) (absolute_path : String)
    (vector_db_res vector_clear_res bm25_res bm25_clear_res : Option String) : ClearResponse :=
  if get_indexed_codebases codebases = [] ∧ get_indexing_codebases codebases = [] then
    ClearResponse.messageResp no_codebases_msg
  else
    match path_validation with
    | some e => ClearResponse.errorResp (e ++ ". Original input: " ++ squote ++
        absolute_path ++ squote)
    | none =>
        if ¬ is_indexed codebases absolute_path ∧ ¬ is_indexing codebases absolute_path then
          ClearResponse.errorResp (not_indexed_msg absolute_path)
        else
          match vector_db_res with
          | some e => ClearResponse.errorResp ("Failed to get vector database for " ++
              absolute_path ++ ": " ++ e)
          | none =>
              match vector_clear_res with
              | some e => ClearResponse.errorResp ("Failed to clear vector index for " ++
                  absolute_path ++ ": " ++ e)
              | none =>
                  match bm25_res with
                  | some e => ClearResponse.errorResp ("Failed to get BM25 search for " ++
                      absolute_path ++ ": " ++ e)
                  | none =>
                      match bm25_clear_res with
                      | some e => ClearResponse.errorResp
                          ("Failed to clear BM25 index for " ++ absolute_path ++ ": " ++ e)
                      | none =>
                          let remaining := assocRemove codebases absolute_path
                          ClearResponse.cleared
                            ("Successfully cleared codebase " ++ squote ++ absolute_path ++
                              squote)
                            (get_indexed_codebases remaining).length
                            (get_indexing_codebases remaining).length

/-- C9 counterexample: with no codebase indexed or indexing at all, a clear
of a valid path returns the success `"message"` no-op, not an `"error"`
object. -/
theorem clear_empty_state_counterexample :
    handle_clear_index [] none "/x" none none none none =
      ClearResponse.messageResp no_codebases_msg ∧
    ∀ e, handle_clear_index [] none "/x" none none none none ≠
      ClearResponse.errorResp e := by
  constructor
  · rfl
  · intro e h
    cases h

/-- C9 (amended): when at least one codebase is indexed or indexing, a
`clear_index` call whose valid target path is neither indexed nor indexing
returns an `"error"` JSON object; but in the state where no codebase at all
is indexed or indexing the handler short-circuits to a success `"message"`
no-op instead. -/
theorem clear_unindexed_error (codebases : List (String × CodebaseInfo)) (path : String)
    (v1 v2 v3 v4 : Option String)
    (hne : ¬ (get_indexed_codebases codebases = [] ∧ get_indexing_codebases codebases = []))
    (hnix : is_indexed codebases path = false)
    (hnig : is_indexing codebases path = false) :
    handle_clear_index codebases none path v1 v2 v3 v4 =
      ClearResponse.errorResp (not_indexed_msg path) := by
  unfold handle_clear_index
  rw [if_neg hne]
  rw [if_pos (by simp [hnix, hnig])]

/-- Witness for `clear_unindexed_error`: one indexed codebase, clear of a
different valid path. -/
theorem clear_unindexed_error_witness :
    (¬ (get_indexed_codebases [("q", CodebaseInfo.indexed 1 2 "completed" "t")] = [] ∧
      get_indexing_codebases [("q", CodebaseInfo.indexed 1 2 "completed" "t")] = [])) ∧
    is_indexed [("q", CodebaseInfo.indexed 1 2 "completed" "t")] "/x" = false ∧
    is_indexing [("q", CodebaseInfo.indexed 1 2 "completed" "t")] "/x" = false ∧
    handle_clear_index [("q", CodebaseInfo.indexed 1 2 "completed" "t")] none "/x"
      none none none none = ClearResponse.errorResp (not_indexed_msg "/x") :=
  ⟨by decide, by decide, by decide,
    clear_unindexed_error [("q", CodebaseInfo.indexed 1 2 "completed" "t")] "/x"
      none none none none (by decide) (by decide) (by decide)⟩
